import Mathlib

/-!
Verification development for the bewer core: a shallow embedding of the
alignment data model (`bewer/alignment/op.py`, `bewer/alignment/alignment.py`),
the Levenshtein alignment builder (`bewer/core/alignment.py`), the keyword
locator (`bewer/core/keyword.py`, `bewer/core/text.py`), and the
pipeline-stage-scoped memoization (`bewer/core/caching.py`,
`bewer/core/token.py`, `bewer/preprocessing/context.py`),
together with proofs of the specified properties.

Python machine-level conventions used throughout the embedding:
Python `int` is embedded as `Int` where negative values are reachable and as
`Nat` where the source only ever produces naturals; `raise` is embedded as
`Except.error` carrying the exception class name and message; `None` is
`Option.none`; Python `dict` built by iterated assignment is an association
list where the last write wins (lookup on the reversed list).
-/

set_option maxHeartbeats 1000000

namespace Bewer

/-- Python exception value: the exception class name and its message
(`raise ValueError("msg")` becomes `⟨"ValueError", "msg"⟩`). -/
structure PyError where
  etype : String
  msg : String
deriving DecidableEq

/-- Embeds `OpType` from `bewer/alignment/op_type.py` (identical in
`bewer/core/op.py`): `MATCH = 0, INSERT = 1, DELETE = 2, SUBSTITUTE = 3`. -/
inductive OpType where
  | MATCH
  | INSERT
  | DELETE
  | SUBSTITUTE
deriving DecidableEq

/-- Embeds the `Op` dataclass of `bewer/alignment/op.py` (fields before
validation): a tagged record with nullable per-side fields.  Spans are
half-open `(start, stop)` character ranges (`slice` objects in the source). -/
structure AOp where
  type : OpType
  ref : Option String := none
  hyp : Option String := none
  ref_token_idx : Option Int := none
  hyp_token_idx : Option Int := none
  ref_span : Option (Int × Int) := none
  hyp_span : Option (Int × Int) := none
  hyp_left_partial : Bool := false
  hyp_right_partial : Bool := false
  ref_left_partial : Bool := false
  ref_right_partial : Bool := false
deriving DecidableEq

instance : Inhabited AOp := ⟨{ type := OpType.MATCH }⟩

/-- Embeds `Op.__post_init__` of `bewer/alignment/op.py`: dataclass
construction runs the validation on the freshly built record and either
raises `ValueError` or leaves the record as constructed. -/
def mkOp (op : AOp) : Except PyError AOp :=
  if op.type = OpType.MATCH then
    if op.ref = none ∨ op.hyp = none then
      Except.error ⟨"ValueError", "MATCH operation must have non-empty ref or hyp."⟩
    else Except.ok op
  else if op.type = OpType.INSERT then
    if op.hyp = none ∨ op.ref ≠ none then
      Except.error ⟨"ValueError", "INSERT operation must have non-empty hyp and empty ref."⟩
    else Except.ok op
  else if op.type = OpType.DELETE then
    if op.hyp ≠ none ∨ op.ref = none then
      Except.error ⟨"ValueError", "DELETE operation must have non-empty ref and empty hyp."⟩
    else Except.ok op
  else if op.type = OpType.SUBSTITUTE then
    if op.ref = none ∨ op.hyp = none then
      Except.error ⟨"ValueError", "SUBSTITUTE operation must have both ref and hyp."⟩
    else Except.ok op
  else Except.ok op

/-- Embeds `Alignment._count_operations` / the `Counter` of
`bewer/alignment/alignment.py`: the number of ops of a given type. -/
def countOps (al : List AOp) (t : OpType) : Nat :=
  (al.filter (fun op => op.type = t)).length

/-- Embeds `Alignment.num_matches`. -/
def num_matches (al : List AOp) : Nat := countOps al OpType.MATCH

/-- Embeds `Alignment.num_substitutions`. -/
def num_substitutions (al : List AOp) : Nat := countOps al OpType.SUBSTITUTE

/-- Embeds `Alignment.num_insertions`. -/
def num_insertions (al : List AOp) : Nat := countOps al OpType.INSERT

/-- Embeds `Alignment.num_deletions`. -/
def num_deletions (al : List AOp) : Nat := countOps al OpType.DELETE

/-- Embeds `Alignment.num_edits = num_substitutions + num_insertions +
num_deletions`. -/
def num_edits (al : List AOp) : Nat :=
  num_substitutions al + num_insertions al + num_deletions al

/-- Lookup in a Python dict built by iterated assignment: the value of the
LAST assignment to the key wins, hence lookup on the reversed pair list. -/
def dictGet (m : List (Int × Nat)) (k : Int) : Option Nat :=
  m.reverse.lookup k

/-- Embeds `Alignment._ref_index_mapping` of `bewer/alignment/alignment.py`:
pairs `(op.ref_token_idx, i)` in op order for every op carrying a
`ref_token_idx`. -/
def refIndexMapping (al : List AOp) : List (Int × Nat) :=
  al.enum.filterMap (fun p => p.2.ref_token_idx.map (fun r => (r, p.1)))

/-- Embeds `Alignment._start_index_mapping`: pairs `(op.ref_span.start, i)`
for every op carrying a `ref_span`. -/
def startIndexMapping (al : List AOp) : List (Int × Nat) :=
  al.enum.filterMap (fun p => p.2.ref_span.map (fun sp => (sp.1, p.1)))

/-- Embeds `Alignment._end_index_mapping`: pairs `(op.ref_span.stop, i)`
for every op carrying a `ref_span`. -/
def endIndexMapping (al : List AOp) : List (Int × Nat) :=
  al.enum.filterMap (fun p => p.2.ref_span.map (fun sp => (sp.2, p.1)))

/-- Embeds `Alignment.ops_from_ref_index` of `bewer/alignment/alignment.py`.
Python slice `self[a : b]` with `0 ≤ a, b` is `(al.drop a).take (b - a)`
(truncated subtraction matches the slice clamping). -/
def ops_from_ref_index (al : List AOp) (start : Int) (stop : Option Int) :
    Except PyError (List AOp) :=
  match dictGet (refIndexMapping al) start with
  | none => Except.error ⟨"ValueError",
      "Start index " ++ toString start ++ " not found in reference index mapping."⟩
  | some istart =>
    match stop with
    | some st =>
      match dictGet (refIndexMapping al) st with
      | none => Except.error ⟨"ValueError",
          "Stop index " ++ toString st ++ " not found in reference index mapping."⟩
      | some istop =>
        if st < start then
          Except.error ⟨"ValueError",
            "Stop index must be greater than or equal to start index."⟩
        else Except.ok ((al.drop istart).take (istop + 1 - istart))
    | none => Except.ok ((al.drop istart).take 1)

/-- Embeds `Alignment.start_index_to_op`: dict `.get` with default `None`,
then indexing (total: the stored op index is always in range). -/
def start_index_to_op (al : List AOp) (char_index : Int) : Option AOp :=
  match dictGet (startIndexMapping al) char_index with
  | some op_index => some (al.getD op_index default)
  | none => none

/-- Embeds `Alignment.end_index_to_op`. -/
def end_index_to_op (al : List AOp) (char_index : Int) : Option AOp :=
  match dictGet (endIndexMapping al) char_index with
  | some op_index => some (al.getD op_index default)
  | none => none

/-- Ambient pipeline configuration: the values of the three `ContextVar`s
`STANDARDIZER_NAME`, `TOKENIZER_NAME`, `NORMALIZER_NAME` of
`bewer/preprocessing/context.py`. -/
structure Config where
  standardizer : String
  tokenizer : String
  normalizer : String
deriving DecidableEq

/-- Embeds the `set_pipeline` context manager of
`bewer/preprocessing/context.py`.  `ContextVar.set` returns a token holding
the prior value and `ContextVar.reset(token)` restores it; the `finally`
block runs on both the normal and the exceptional exit, so the body is a
state-passing function whose result type `ρ` may itself be an `Except`
(covering a raising body), and the resets run unconditionally after it. -/
def set_pipeline {ρ : Type} (standardizer tokenizer normalizer : String)
    (body : Config → ρ × Config) (cfg : Config) : ρ × Config :=
  let tok_token := cfg.tokenizer
  let std_token := cfg.standardizer
  let norm_token := cfg.normalizer
  let entered : Config := ⟨standardizer, tokenizer, normalizer⟩
  let out := body entered
  (out.1, ⟨std_token, tok_token, norm_token⟩)

/-- Generic form of the three span/index mappings of
`bewer/alignment/alignment.py`. -/
def projMapping (proj : AOp → Option Int) (al : List AOp) : List (Int × Nat) :=
  al.enum.filterMap (fun p => (proj p.2).map (fun x => (x, p.1)))

/-- Reference token indices of the reference-bearing Ops, in op order. -/
def refIdxs (al : List AOp) : List Int :=
  al.filterMap (fun op => op.ref_token_idx)

/-- Bool test used by `RefMonotone`: two ref indices in op order are in
strictly increasing order (vacuous when either op bears none). -/
def refPairOk (a b : Option Int) : Bool :=
  match a, b with
  | some ri, some rj => ri < rj
  | _, _ => true

/-- Well-formedness of a sealed Alignment: the reference-bearing Ops appear
in strictly increasing `ref_token_idx` order (alignments built by the
builder, their slices and their concatenations in order all satisfy it). -/
def RefMonotone (al : List AOp) : Prop :=
  ∀ j, j < al.length → ∀ i, i < j →
    refPairOk (al.getD i default).ref_token_idx (al.getD j default).ref_token_idx = true

instance (al : List AOp) : Decidable (RefMonotone al) := by
  unfold RefMonotone
  infer_instance

/-- Concrete three-op alignment (Match, interleaved Insert, Delete) used to
instantiate the range-query theorem. -/
def alignEx : List AOp :=
  [⟨OpType.MATCH, some "the", some "the", some 0, some 0, some (0, 3), some (0, 3),
     false, false, false, false⟩,
   ⟨OpType.INSERT, none, some "x", none, some 1, none, some (4, 5),
     false, false, false, false⟩,
   ⟨OpType.DELETE, some "cat", none, some 1, none, some (4, 7), none,
     false, false, false, false⟩]

/-! ### Alignment builder (`bewer/core/alignment.py`) -/

/-- Embeds the `Op` of `bewer/core/op.py` (the variant consumed by
`LevenshteinAlignment`): type plus nullable indices and token payloads.
Tokens are opaque values of type `α`. -/
structure COp (α : Type) where
  type : OpType
  hyp_index : Option Nat
  ref_index : Option Nat
  hyp_token : Option α
  ref_token : Option α
deriving DecidableEq

/-- Embeds `{op[1] for op in rapidfuzz_ops if op[0] != "insert"}` (the set
is represented by this list; only membership is ever used). -/
def refEditIdxs (ops : List (String × Nat × Nat)) : List Nat :=
  (ops.filter (fun o => decide (o.1 ≠ "insert"))).map (fun o => o.2.1)

/-- Embeds `{op[2] for op in rapidfuzz_ops if op[0] != "delete"}`. -/
def hypEditIdxs (ops : List (String × Nat × Nat)) : List Nat :=
  (ops.filter (fun o => decide (o.1 ≠ "delete"))).map (fun o => o.2.2)

/-- The sort key `lambda x: (x[1], x[2])` of
`sorted(rapidfuzz_ops, key=...)` as a boolean comparison. -/
def opKeyLe (a b : String × Nat × Nat) : Bool :=
  decide (a.2.1 < b.2.1) || (decide (a.2.1 = b.2.1) && decide (a.2.2 ≤ b.2.2))

/-- Strict version of the sort key order (coordinates strictly smaller in
lexicographic order). -/
def opKeyLt (a b : String × Nat × Nat) : Prop :=
  a.2.1 < b.2.1 ∨ (a.2.1 = b.2.1 ∧ a.2.2 < b.2.2)

instance : IsAntisymm (String × Nat × Nat) opKeyLt :=
  ⟨by
    intro a b h1 h2
    exfalso
    unfold opKeyLt at h1 h2
    omega⟩

/-- Embeds the body of the conversion loop of `_rapidfuzz_to_bewer_op`:
one sorted triple becomes one `Op`; indexing a token list out of range
raises `IndexError`, an unrecognized kind raises `ValueError`. -/
def convertOp {α : Type} (ref_tokens hyp_tokens : List α) :
    String × Nat × Nat → Except PyError (COp α)
  | (op_type, ref_idx, hyp_idx) =>
    if op_type = "match" ∨ op_type = "replace" then
      match ref_tokens[ref_idx]?, hyp_tokens[hyp_idx]? with
      | some rt, some ht =>
        Except.ok ⟨if op_type = "match" then OpType.MATCH else OpType.SUBSTITUTE,
          some hyp_idx, some ref_idx, some ht, some rt⟩
      | _, _ => Except.error ⟨"IndexError", "list index out of range"⟩
    else if op_type = "delete" then
      match ref_tokens[ref_idx]? with
      | some rt => Except.ok ⟨OpType.DELETE, none, some ref_idx, none, some rt⟩
      | none => Except.error ⟨"IndexError", "list index out of range"⟩
    else if op_type = "insert" then
      match hyp_tokens[hyp_idx]? with
      | some ht => Except.ok ⟨OpType.INSERT, some hyp_idx, none, some ht, none⟩
      | none => Except.error ⟨"IndexError", "list index out of range"⟩
    else Except.error ⟨"ValueError", "Unknown operation type: " ++ op_type⟩

/-- The conversion loop over the sorted triples, first raise wins. -/
def convertOps {α : Type} (ref_tokens hyp_tokens : List α) :
    List (String × Nat × Nat) → Except PyError (List (COp α))
  | [] => Except.ok []
  | e :: rest =>
    match convertOp ref_tokens hyp_tokens e with
    | Except.error err => Except.error err
    | Except.ok op =>
      match convertOps ref_tokens hyp_tokens rest with
      | Except.error err => Except.error err
      | Except.ok ops => Except.ok (op :: ops)

/-- Embeds `LevenshteinAlignment._rapidfuzz_to_bewer_op`: assert the
cardinality invariant (`AssertionError` on violation), synthesize match
triples with `zip(match_ref_indices, match_hyp_indices)`, sort everything
by `(ref_idx, hyp_idx)` and convert to Ops.

The untouched-index values `match_ref_indices = set(range(len(ref_tokens)))
- ref_edit_idxs` and `match_hyp_indices` are Python SETS, and `zip` consumes
them in their iteration order, which the language leaves
implementation-defined: CPython iterates hash-slot order, which is ascending
only while every element is below the hash-table size (for example the
fresh two-element set `set([1, 32])` iterates as `[32, 1]`, since
`32 mod 8 = 0`).  The embedding therefore takes the two realized iteration
sequences `match_ref_iter` and `match_hyp_iter` as explicit inputs; a
faithful instantiation supplies sequences that enumerate the two untouched
index sets without repetition, in whatever order the host interpreter
realizes (the set sizes checked by the assert are the lengths of these
sequences). -/
def rapidfuzzToBewerOp {α : Type} (rapidfuzz_ops : List (String × Nat × Nat))
    (match_ref_iter match_hyp_iter : List Nat)
    (ref_tokens hyp_tokens : List α) : Except PyError (List (COp α)) :=
  if match_ref_iter.length ≠ match_hyp_iter.length then
    Except.error ⟨"AssertionError", "Mismatch in match indices"⟩
  else
    convertOps ref_tokens hyp_tokens
      ((rapidfuzz_ops
          ++ (match_ref_iter.zip match_hyp_iter).map
              (fun p => ("match", p.1, p.2))).mergeSort
        opKeyLe)

/-! ### Validity of sparse edit scripts

A sparse edit script is valid when it is the sparse projection (matches
omitted) of a complete monotone alignment walk, which is exactly what an
edit-distance primitive such as `rapidfuzz.distance.Levenshtein.editops`
produces: each walk step consumes the next reference position, the next
hypothesis position, or both. -/

/-- Does a walk step consume a reference position? -/
def refConsumes : OpType → Bool
  | OpType.MATCH => true
  | OpType.SUBSTITUTE => true
  | OpType.DELETE => true
  | OpType.INSERT => false

/-- Does a walk step consume a hypothesis position? -/
def hypConsumes : OpType → Bool
  | OpType.MATCH => true
  | OpType.SUBSTITUTE => true
  | OpType.INSERT => true
  | OpType.DELETE => false

/-- Number of reference tokens a walk consumes. -/
def refLenW (w : List OpType) : Nat := (w.filter refConsumes).length

/-- Number of hypothesis tokens a walk consumes. -/
def hypLenW (w : List OpType) : Nat := (w.filter hypConsumes).length

/-- The rapidfuzz tag of a walk step. -/
def kindStr : OpType → String
  | OpType.MATCH => "match"
  | OpType.SUBSTITUTE => "replace"
  | OpType.INSERT => "insert"
  | OpType.DELETE => "delete"

/-- Reference cursor advance. -/
def rstep (t : OpType) (i : Nat) : Nat := if refConsumes t then i + 1 else i

/-- Hypothesis cursor advance. -/
def hstep (t : OpType) (j : Nat) : Nat := if hypConsumes t then j + 1 else j

/-- The complete (matches included) triple list of a walk starting at
cursors `(i, j)`. -/
def fullScript : List OpType → Nat → Nat → List (String × Nat × Nat)
  | [], _, _ => []
  | t :: w, i, j => (kindStr t, i, j) :: fullScript w (rstep t i) (hstep t j)

/-- The sparse edit script of a walk: the complete triple list with match
entries omitted, as an edit-distance primitive reports it. -/
def sparseScript (w : List OpType) (i j : Nat) : List (String × Nat × Nat) :=
  (fullScript w i j).filter (fun e => decide (e.1 ≠ "match"))

instance (a b : String × Nat × Nat) : Decidable (opKeyLt a b) := by
  unfold opKeyLt
  infer_instance

/-- The walk realizing the failing input of the set-iteration-order bug:
delete ref 0, match ref 1 to hyp 0, delete ref 2..31, match ref 32 to
hyp 1.  Its sparse projection is the minimal Levenshtein edit script for a
33-token reference whose tokens 1 and 32 survive into a 2-token
hypothesis. -/
def bugWalk : List OpType :=
  [OpType.DELETE, OpType.MATCH] ++ List.replicate 30 OpType.DELETE ++ [OpType.MATCH]

/-- The minimal edit script the edit-distance primitive emits for the
failing input: `delete(0,0), delete(2,1), ..., delete(31,1)`. -/
def bugScript : List (String × Nat × Nat) := sparseScript bugWalk 0 0

/-- The `(ref_idx, hyp_idx)`-sorted order of the combined triple list on the
failing input (script plus the two match triples the source synthesizes
from CPython's iteration orders). -/
def bugSorted : List (String × Nat × Nat) :=
  [("delete", 0, 0), ("match", 1, 1)]
    ++ (List.range' 2 30).map (fun k => ("delete", k, 1))
    ++ [("match", 32, 0)]

/-! ### Keyword location (`bewer/core/keyword.py`, `bewer/core/text.py`) -/

/-- Haystack token as seen by the keyword search: its raw text and its
normalized text under the active normalizer (the two comparison modes of
`TokenList.indices`). -/
structure KTok where
  raw : String
  norm : String
deriving DecidableEq

instance : Inhabited KTok := ⟨⟨"", ""⟩⟩

/-- Token text under the requested comparison mode (the `normalized` flag of
`TokenList.indices` / `Keyword.find_in_tokens`). -/
def tokenText (normalized : Bool) (t : KTok) : String :=
  if normalized then t.norm else t.raw

/-- Embeds `TokenList.indices` of `bewer/core/text.py`: all token positions
whose text matches `text` under the requested mode (the source precomputes
the `text -> set of positions` mapping; the set is embedded as its ascending
enumeration). -/
def indices (tl : List KTok) (text : String) (normalized : Bool) : List Nat :=
  (List.range tl.length).filter
    (fun i => decide (tokenText normalized (tl.getD i default) = text))

/-- Embeds the intersection loop of `Keyword.find_in_tokens`
(`for offset, kw_text in enumerate(kw_tokens[1:], start=1)`).  Python
computes `starts & {p - offset for p in positions}`; since every
`s ∈ starts` is a token position (a natural), `s` lies in that set exactly
when `s + offset ∈ positions`, which is the filter below.  The early
`return []` on an empty intersection is the `if` branch. -/
def kwIntersect (tl : List KTok) (normalized : Bool) :
    List String → Nat → List Nat → List Nat
  | [], _, starts => starts
  | kw_text :: rest, offset, starts =>
    let starts2 := starts.filter (fun s => decide (s + offset ∈ indices tl kw_text normalized))
    if starts2 = [] then [] else kwIntersect tl normalized rest (offset + 1) starts2

/-- Embeds `Keyword.find_in_tokens` of `bewer/core/keyword.py`: empty
keyword returns `[]`; otherwise seed with the positions of the first keyword
token, intersect with the offset-shifted positions of each subsequent token,
and materialize `sorted(starts)` as the token slices
`token_list[start : start + kw_len]`. -/
def find_in_tokens (kw_tokens : List String) (token_list : List KTok)
    (normalized : Bool) : List (List KTok) :=
  match kw_tokens with
  | [] => []
  | k0 :: krest =>
    let starts := indices token_list k0 normalized
    let finalStarts := kwIntersect token_list normalized krest 1 starts
    (finalStarts.mergeSort (fun a b => decide (a ≤ b))).map
      (fun start => (token_list.drop start).take (k0 :: krest).length)

/-- Specification-side definition (from the spec, for comparison with the
source translation): the keyword occurs contiguously at start position `p`,
that is the slice `[p, p+K)` exists and compares equal tokenwise under the
requested mode. -/
def occursAtB (kw : List String) (tl : List KTok) (normalized : Bool) (p : Nat) : Bool :=
  decide (p + kw.length ≤ tl.length)
    && (List.range kw.length).all
        (fun o => tokenText normalized (tl.getD (p + o) default) == kw.getD o "")

/-- Specification-side definition: every occurrence start position, in
ascending order. -/
def keywordOccurrences (kw : List String) (tl : List KTok) (normalized : Bool) :
    List Nat :=
  (List.range tl.length).filter (occursAtB kw tl normalized)

/-- Conjunction of the per-token membership tests applied by the
intersection loop from a given offset on. -/
def restAll (tl : List KTok) (normalized : Bool) : List String → Nat → Nat → Bool
  | [], _, _ => true
  | kw_text :: rest, offset, s =>
    decide (s + offset ∈ indices tl kw_text normalized)
      && restAll tl normalized rest (offset + 1) s

/-! ### Pipeline-stage-scoped memoization (`bewer/core/caching.py`) -/

/-- Observable state of one pipeline-cached property: the per-instance cache
dict (`_cache_{name}`) keyed by the stage-prefix tuple, plus a counter of
`_compute` invocations (the tests observe recomputation through such a
counter). -/
structure PipeState (V : Type) where
  cache : List (List String × V)
  calls : Nat

/-- Embeds `PipelineCachedProperty.__get__` of `bewer/core/caching.py`.
`cfg` is the ambient `ContextVar` tuple in `PIPELINE_STAGES` order and `k`
the stage of the property, so `key = cfg.take k` models
`tuple(cv.get() for cv in self._context_vars)` (for `k = 1` Python unwraps
the singleton tuple, an equivalent keying).  `pipelines` is
`instance._pipelines` restricted to the `self._pipeline` attribute
(`none` models an unattached instance), `computeFn key func` models
`self._compute(instance, func)`, whose result depends on the ambient stages
`1..k` only (the source accessors read no later stage).  `Token.normalized`
of `bewer/core/token.py` is the same procedure at `k = 3` over the
`normalizers` registry. -/
def pcpGet {F V : Type} (pipelines : Option (List (String × F)))
    (stageAttr : String) (computeFn : List String → F → V)
    (cfg : List String) (k : Nat) (st : PipeState V) :
    Except PyError (V × PipeState V) :=
  let key := cfg.take k
  match st.cache.lookup key with
  | some v => Except.ok (v, st)
  | none =>
    match pipelines with
    | none => Except.error ⟨"ValueError", "No " ++ stageAttr ++ " found in pipelines."⟩
    | some registry =>
      let pipeline_name := key.getLastD ""
      match registry.lookup pipeline_name with
      | none => Except.error ⟨"ValueError",
          "\x27" ++ pipeline_name ++ "\x27 not found in " ++ stageAttr ++ "."⟩
      | some func =>
        let result := computeFn key func
        Except.ok (result, ⟨(key, result) :: st.cache, st.calls + 1⟩)

/-- Invariant of the per-instance cache: every stored value is the one the
resolved pipeline function computes for its own key. -/
def CacheConsistent {F V : Type} (reg : List (String × F))
    (computeFn : List String → F → V) (cache : List (List String × V)) : Prop :=
  ∀ key v, cache.lookup key = some v →
    ∃ f, reg.lookup (key.getLastD "") = some f ∧ v = computeFn key f

/-- Concrete registry for the memoization witnesses: one entry named
`default` whose resolved pipeline function is represented opaquely by a
string handle. -/
def pcpRegEx : List (String × String) := [("default", "normfn")]

/-- Concrete compute closure for the memoization witnesses. -/
def pcpComputeEx : List String → String → String :=
  fun key f => f ++ "|" ++ String.intercalate "-" key

/-! ### Helper lemmas on dict lookups and span mappings -/

theorem dictGet_none_iff (m : List (Int × Nat)) (k : Int) :
    dictGet m k = none ↔ ∀ p ∈ m, p.1 ≠ k := by
  simp only [dictGet, List.lookup_eq_none_iff, List.mem_reverse, bne_iff_ne]
  constructor
  · intro h p hp
    exact fun hc => (h p hp) hc.symm
  · intro h p hp
    exact fun hc => (h p hp) hc.symm

theorem dictGet_some_mem {m : List (Int × Nat)} {k : Int} {i : Nat}
    (h : dictGet m k = some i) : (k, i) ∈ m := by
  simp only [dictGet] at h
  rw [List.lookup_eq_some_iff] at h
  obtain ⟨l₁, l₂, hm, -⟩ := h
  have : (k, i) ∈ m.reverse := by
    rw [hm]
    exact List.mem_append.mpr (Or.inr (List.mem_cons_self _ _))
  simpa using this

theorem mem_projMapping {proj : AOp → Option Int} {al : List AOp} {x : Int} {i : Nat} :
    (x, i) ∈ projMapping proj al ↔ ∃ op, al[i]? = some op ∧ proj op = some x := by
  simp only [projMapping, List.mem_filterMap]
  constructor
  · rintro ⟨⟨j, op⟩, hmem, hf⟩
    simp only [Option.map_eq_some'] at hf
    obtain ⟨y, hy, heq⟩ := hf
    obtain ⟨hx, hi⟩ := Prod.mk.injEq .. ▸ heq
    rw [List.mem_enum_iff_getElem?] at hmem
    exact ⟨op, by simpa [← hi] using hmem, by simp [hy, hx]⟩
  · rintro ⟨op, hget, hproj⟩
    refine ⟨(i, op), ?_, ?_⟩
    · rw [List.mem_enum_iff_getElem?]; exact hget
    · simp [hproj]

theorem startIndexMapping_eq (al : List AOp) :
    startIndexMapping al = projMapping (fun op => op.ref_span.map (fun sp => sp.1)) al := by
  simp only [startIndexMapping, projMapping]
  apply List.filterMap_congr
  intro p _
  cases p.2.ref_span <;> rfl

theorem endIndexMapping_eq (al : List AOp) :
    endIndexMapping al = projMapping (fun op => op.ref_span.map (fun sp => sp.2)) al := by
  simp only [endIndexMapping, projMapping]
  apply List.filterMap_congr
  intro p _
  cases p.2.ref_span <;> rfl

theorem refIndexMapping_eq (al : List AOp) :
    refIndexMapping al = projMapping (fun op => op.ref_token_idx) al := rfl

/-- Characterization of the generic offset lookup
(`mapping.get(char_index, None)` followed by indexing). -/
theorem projLookup_characterize (proj : AOp → Option Int) (al : List AOp) (c : Int) :
    (dictGet (projMapping proj al) c = none ↔
      ∀ op ∈ al, ∀ x, proj op = some x → x ≠ c)
    ∧ (∀ i, dictGet (projMapping proj al) c = some i →
        i < al.length ∧ (al.getD i default) ∈ al ∧ proj (al.getD i default) = some c) := by
  constructor
  · rw [dictGet_none_iff]
    constructor
    · intro h op hop x hx hxc
      obtain ⟨i, hi⟩ := List.mem_iff_getElem?.mp hop
      exact h (c, i) (mem_projMapping.mpr ⟨op, hi, hxc ▸ hx⟩) rfl
    · rintro h ⟨x, i⟩ hp hxc
      obtain ⟨op, hget, hproj⟩ := mem_projMapping.mp hp
      exact h op (List.getElem?_mem hget) x hproj hxc
  · intro i hi
    obtain ⟨op, hget, hproj⟩ := mem_projMapping.mp (dictGet_some_mem hi)
    have hlt : i < al.length := by
      by_contra hge
      rw [List.getElem?_eq_none (by omega)] at hget
      exact Option.noConfusion hget
    have hD : al.getD i default = op := by
      rw [List.getD_eq_getElem?_getD, hget]
      rfl
    exact ⟨hlt, hD ▸ List.getElem?_mem hget, hD ▸ hproj⟩

/-! ### Reference-index range queries -/

theorem refLookup_some {al : List AOp} {r : Int} {i : Nat}
    (h : dictGet (refIndexMapping al) r = some i) :
    i < al.length ∧ (al.getD i default).ref_token_idx = some r := by
  have h2 := (projLookup_characterize (fun op => op.ref_token_idx) al r).2 i
    (by rw [← refIndexMapping_eq]; exact h)
  exact ⟨h2.1, h2.2.2⟩

theorem refLookup_none_iff {al : List AOp} {r : Int} :
    dictGet (refIndexMapping al) r = none ↔ r ∉ refIdxs al := by
  rw [refIndexMapping_eq]
  rw [(projLookup_characterize (fun op => op.ref_token_idx) al r).1]
  simp only [refIdxs, List.mem_filterMap, not_exists, not_and]
  constructor
  · intro h op hop hsome
    exact h op hop r hsome rfl
  · intro h op hop x hx hxr
    exact h op hop (hxr ▸ hx)

theorem refLookup_mem {al : List AOp} {r : Int} (h : r ∈ refIdxs al) :
    ∃ i, dictGet (refIndexMapping al) r = some i := by
  cases hd : dictGet (refIndexMapping al) r with
  | none => exact absurd h (refLookup_none_iff.mp hd)
  | some i => exact ⟨i, rfl⟩

theorem refLookup_mem_of_some {al : List AOp} {r : Int} {i : Nat}
    (h : dictGet (refIndexMapping al) r = some i) : r ∈ refIdxs al := by
  obtain ⟨hlt, hr⟩ := refLookup_some h
  have hmem : al.getD i default ∈ al := by
    rw [List.getD_eq_getElem _ _ hlt]
    exact List.getElem_mem hlt
  exact List.mem_filterMap.mpr ⟨al.getD i default, hmem, hr⟩

theorem refMonotone_le {al : List AOp} (hm : RefMonotone al) {r s : Int} {a b : Nat}
    (hr : dictGet (refIndexMapping al) r = some a)
    (hs : dictGet (refIndexMapping al) s = some b)
    (hrs : r ≤ s) : a ≤ b := by
  obtain ⟨hal, hra⟩ := refLookup_some hr
  obtain ⟨hbl, hsb⟩ := refLookup_some hs
  by_contra hba
  have hba2 : b < a := by omega
  have := hm a hal b hba2
  rw [hsb, hra, refPairOk] at this
  simp only [decide_eq_true_eq] at this
  omega

/-! ### Alignment builder lemmas -/

theorem opKeyLe_trans : ∀ (a b c : String × Nat × Nat),
    opKeyLe a b → opKeyLe b c → opKeyLe a c := by
  intro a b c hab hbc
  simp only [opKeyLe, Bool.or_eq_true, Bool.and_eq_true, decide_eq_true_eq] at *
  omega

theorem opKeyLe_total : ∀ (a b : String × Nat × Nat), opKeyLe a b || opKeyLe b a := by
  intro a b
  simp only [opKeyLe, Bool.or_eq_true, Bool.and_eq_true, decide_eq_true_eq]
  omega

theorem opKeyLt_ne {a b : String × Nat × Nat} (h : opKeyLt a b) : a.2 ≠ b.2 := by
  unfold opKeyLt at h
  intro he
  have h1 := congrArg Prod.fst he
  have h2 := congrArg Prod.snd he
  simp only at h1 h2
  omega

theorem opKeyLe_ne_lt {a b : String × Nat × Nat}
    (hle : opKeyLe a b = true) (hne : a.2 ≠ b.2) : opKeyLt a b := by
  simp only [opKeyLe, Bool.or_eq_true, Bool.and_eq_true, decide_eq_true_eq] at hle
  unfold opKeyLt
  rcases hle with h | ⟨h1, h2⟩
  · exact Or.inl h
  · rcases Nat.lt_or_ge a.2.2 b.2.2 with h3 | h3
    · exact Or.inr ⟨h1, h3⟩
    · exfalso
      exact hne (Prod.ext h1 (by omega))

theorem mergeSort_eq_of_sorted_perm (l L : List (String × Nat × Nat))
    (hperm : l.Perm L) (hsort : L.Pairwise opKeyLt) :
    l.mergeSort opKeyLe = L := by
  have hperm2 : (l.mergeSort opKeyLe).Perm L :=
    (List.mergeSort_perm l opKeyLe).trans hperm
  have hsortle := List.sorted_mergeSort opKeyLe_trans opKeyLe_total l
  have hne : (l.mergeSort opKeyLe).Pairwise (fun a b => a.2 ≠ b.2) := by
    rw [hperm2.pairwise_iff (fun h => Ne.symm h)]
    exact hsort.imp (fun h => opKeyLt_ne h)
  have hsortlt : (l.mergeSort opKeyLe).Pairwise opKeyLt :=
    (hsortle.and hne).imp (fun h => opKeyLe_ne_lt h.1 h.2)
  exact List.eq_of_perm_of_sorted hperm2 hsortlt hsort

/-! ### Keyword locator lemmas -/

theorem kwIntersect_eq_filter (tl : List KTok) (nm : Bool) :
    ∀ (rest : List String) (offset : Nat) (starts : List Nat),
    kwIntersect tl nm rest offset starts = starts.filter (restAll tl nm rest offset)
  | [], offset, starts => by
    simp [kwIntersect, restAll]
  | kw_text :: rest, offset, starts => by
    simp only [kwIntersect]
    have hsplit : starts.filter (restAll tl nm (kw_text :: rest) offset)
        = (starts.filter
            (fun s => decide (s + offset ∈ indices tl kw_text nm))).filter
          (restAll tl nm rest (offset + 1)) := by
      rw [List.filter_filter]
      apply List.filter_congr
      intro s _
      rw [restAll]
      exact Bool.and_comm _ _
    by_cases h : starts.filter (fun s => decide (s + offset ∈ indices tl kw_text nm)) = []
    · rw [if_pos h, hsplit, h]
      rfl
    · rw [if_neg h, kwIntersect_eq_filter tl nm rest (offset + 1) _, hsplit]

theorem restAll_iff (tl : List KTok) (nm : Bool) :
    ∀ (rest : List String) (offset s : Nat),
    restAll tl nm rest offset s = true ↔
      ∀ o, o < rest.length →
        s + offset + o < tl.length ∧
        tokenText nm (tl.getD (s + offset + o) default) = rest.getD o ""
  | [], offset, s => by
    simp [restAll]
  | kw_text :: rest, offset, s => by
    rw [restAll, Bool.and_eq_true, decide_eq_true_eq,
      restAll_iff tl nm rest (offset + 1) s]
    have hmem : s + offset ∈ indices tl kw_text nm ↔
        s + offset < tl.length ∧
        tokenText nm (tl.getD (s + offset) default) = kw_text := by
      simp [indices, List.mem_filter, List.mem_range]
    constructor
    · rintro ⟨hhead, hrest⟩ o ho
      cases o with
      | zero =>
        rw [hmem] at hhead
        simpa using hhead
      | succ o2 =>
        have ho2 : o2 < rest.length := by simpa using ho
        obtain ⟨h1, h2⟩ := hrest o2 ho2
        have harith : s + offset + (o2 + 1) = s + (offset + 1) + o2 := by omega
        rw [harith, List.getD_cons_succ]
        exact ⟨h1, h2⟩
    · intro hall
      constructor
      · rw [hmem]
        have h0 := hall 0 (by simp)
        simpa using h0
      · intro o ho
        have h1 := hall (o + 1) (by simpa using Nat.succ_lt_succ ho)
        have harith : s + offset + (o + 1) = s + (offset + 1) + o := by omega
        rw [harith, List.getD_cons_succ] at h1
        exact h1

theorem occurs_pointwise (tl : List KTok) (nm : Bool) (k0 : String)
    (krest : List String) (i : Nat) (hi : i < tl.length) :
    (restAll tl nm krest 1 i && decide (tokenText nm (tl.getD i default) = k0))
      = occursAtB (k0 :: krest) tl nm i := by
  rw [Bool.eq_iff_iff, Bool.and_eq_true, decide_eq_true_eq,
    restAll_iff tl nm krest 1 i]
  rw [occursAtB, Bool.and_eq_true, decide_eq_true_eq, List.all_eq_true]
  constructor
  · rintro ⟨hrest, hhead⟩
    constructor
    · rcases Nat.eq_zero_or_pos krest.length with hz | hpos
      · simp only [List.length_cons, hz]
        omega
      · have := (hrest (krest.length - 1) (by omega)).1
        simp only [List.length_cons]
        omega
    · intro o ho
      rw [List.mem_range] at ho
      rw [beq_iff_eq]
      cases o with
      | zero => simpa using hhead
      | succ o2 =>
        have ho2 : o2 < krest.length := by simpa using ho
        have harith : i + (o2 + 1) = i + 1 + o2 := by omega
        rw [harith, List.getD_cons_succ]
        exact (hrest o2 ho2).2
  · rintro ⟨hlen, hall⟩
    constructor
    · intro o ho
      have h1 := hall (o + 1) (by rw [List.mem_range]; simpa using Nat.succ_lt_succ ho)
      rw [beq_iff_eq] at h1
      have harith : i + 1 + o = i + (o + 1) := by omega
      rw [harith]
      refine ⟨by simp only [List.length_cons] at hlen; omega, ?_⟩
      rw [List.getD_cons_succ] at h1
      exact h1
    · have h0 := hall 0 (by rw [List.mem_range]; simp)
      rw [beq_iff_eq] at h0
      simpa using h0

/-! ### Counting lemmas -/

theorem countOps_cons (op : AOp) (rest : List AOp) (t : OpType) :
    countOps (op :: rest) t = (if op.type = t then 1 else 0) + countOps rest t := by
  simp only [countOps, List.filter_cons]
  by_cases h : op.type = t
  · simp [h, Nat.add_comm]
  · simp [h]

/-! ### Claim theorems (easy group) -/

/-- C6: for every Alignment value, however constructed,
`num_matches + num_substitutions + num_insertions + num_deletions` equals the
number of Ops, `num_edits` equals `subs + ins + dels`, and each count equals a
direct recount of the variant tags over the Ops. -/
theorem alignment_counts_partition (al : List AOp) :
    num_matches al + num_substitutions al + num_insertions al + num_deletions al = al.length
    ∧ num_edits al = num_substitutions al + num_insertions al + num_deletions al
    ∧ num_matches al = al.countP (fun op => op.type = OpType.MATCH)
    ∧ num_substitutions al = al.countP (fun op => op.type = OpType.SUBSTITUTE)
    ∧ num_insertions al = al.countP (fun op => op.type = OpType.INSERT)
    ∧ num_deletions al = al.countP (fun op => op.type = OpType.DELETE) := by
  refine ⟨?_, rfl, ?_, ?_, ?_, ?_⟩
  · induction al with
    | nil => rfl
    | cons op rest ih =>
      simp only [num_matches, num_substitutions, num_insertions, num_deletions] at *
      rw [countOps_cons, countOps_cons, countOps_cons, countOps_cons, List.length_cons]
      cases h : op.type <;> simp [h] <;> omega
  all_goals simp [num_matches, num_substitutions, num_insertions, num_deletions,
    countOps, List.countP_eq_length_filter]

/-- C8: `set_pipeline` runs the body under the replacement stage names and
restores every stage variable to its prior value on every exit path (the body
result type `ρ` may be an `Except`, covering the exceptional exit; the
`finally` resets run regardless of it). -/
theorem set_pipeline_scoped_activation {ρ : Type} (s t n : String)
    (body : Config → ρ × Config) (cfg : Config) :
    set_pipeline s t n body cfg = ((body ⟨s, t, n⟩).1, cfg) := by
  cases cfg
  rfl

/-- C9 counterexample: an `INSERT` Op carrying a reference-side token index
and span is constructed successfully, so an Op may carry a field belonging to
another variant. -/
theorem op_insert_carries_ref_fields :
    mkOp ⟨OpType.INSERT, none, some "dog", some 5, none, some (0, 3), none,
      false, false, false, false⟩ =
    Except.ok ⟨OpType.INSERT, none, some "dog", some 5, none, some (0, 3), none,
      false, false, false, false⟩ := by
  rfl

/-- C9 (amended): `Op.__post_init__` validates only the `ref`/`hyp` text
fields — construction succeeds exactly when the text fields fit the variant
(Match/Substitute need both texts, Insert needs `hyp` and no `ref`, Delete
needs `ref` and no `hyp`), any failure raises `ValueError`, and a successful
construction returns the record unchanged, index and span fields of other
variants included. -/
theorem op_post_init_validates_texts (op : AOp) :
    (mkOp op = Except.ok op ∨ ∃ e, mkOp op = Except.error e ∧ e.etype = "ValueError")
    ∧ ((∃ op2, mkOp op = Except.ok op2) ↔
        ((op.type = OpType.MATCH → op.ref ≠ none ∧ op.hyp ≠ none)
         ∧ (op.type = OpType.SUBSTITUTE → op.ref ≠ none ∧ op.hyp ≠ none)
         ∧ (op.type = OpType.INSERT → op.hyp ≠ none ∧ op.ref = none)
         ∧ (op.type = OpType.DELETE → op.ref ≠ none ∧ op.hyp = none)))
    ∧ (∀ op2, mkOp op = Except.ok op2 → op2 = op) := by
  obtain ⟨t, r, h, rti, hti, rs, hs, p1, p2, p3, p4⟩ := op
  cases t <;> cases r <;> cases h <;>
    simp [mkOp]

/-- C10: the character-offset lookups of an Alignment index only the
reference side and are total: `start_index_to_op c` returns an Op whose
`ref_span` starts at `c` exactly when one exists and `None` otherwise,
`end_index_to_op c` likewise for `ref_span` ends; an Op without a `ref_span`
is never returned and hypothesis-side offsets are never matched. -/
theorem index_lookups_characterize (al : List AOp) (c : Int) :
    ((start_index_to_op al c = none) ↔
      ∀ op ∈ al, ∀ sp, op.ref_span = some sp → sp.1 ≠ c)
    ∧ (∀ op, start_index_to_op al c = some op →
        op ∈ al ∧ ∃ sp, op.ref_span = some sp ∧ sp.1 = c)
    ∧ ((end_index_to_op al c = none) ↔
      ∀ op ∈ al, ∀ sp, op.ref_span = some sp → sp.2 ≠ c)
    ∧ (∀ op, end_index_to_op al c = some op →
        op ∈ al ∧ ∃ sp, op.ref_span = some sp ∧ sp.2 = c) := by
  obtain ⟨hs_none, hs_some⟩ :=
    projLookup_characterize (fun op => op.ref_span.map (fun sp => sp.1)) al c
  obtain ⟨he_none, he_some⟩ :=
    projLookup_characterize (fun op => op.ref_span.map (fun sp => sp.2)) al c
  refine ⟨?_, ?_, ?_, ?_⟩
  · rw [start_index_to_op, startIndexMapping_eq]
    constructor
    · intro hnone op hop sp hsp hc
      cases hd : dictGet (projMapping (fun op => op.ref_span.map (fun sp => sp.1)) al) c with
      | none =>
        exact (hs_none.mp hd) op hop (sp.1) (by simp [hsp]) hc
      | some i => simp [hd] at hnone
    · intro hall
      cases hd : dictGet (projMapping (fun op => op.ref_span.map (fun sp => sp.1)) al) c with
      | none => simp [hd]
      | some i =>
        obtain ⟨-, hmem, hproj⟩ := hs_some i hd
        obtain ⟨sp, hsp, hx⟩ := Option.map_eq_some'.mp hproj
        exact absurd hx (hall _ hmem sp hsp)
  · intro op hop
    rw [start_index_to_op, startIndexMapping_eq] at hop
    cases hd : dictGet (projMapping (fun op => op.ref_span.map (fun sp => sp.1)) al) c with
    | none => simp [hd] at hop
    | some i =>
      obtain ⟨-, hmem, hproj⟩ := hs_some i hd
      simp only [hd] at hop
      obtain ⟨sp, hsp, hx⟩ := Option.map_eq_some'.mp hproj
      cases hop
      exact ⟨hmem, sp, hsp, hx⟩
  · rw [end_index_to_op, endIndexMapping_eq]
    constructor
    · intro hnone op hop sp hsp hc
      cases hd : dictGet (projMapping (fun op => op.ref_span.map (fun sp => sp.2)) al) c with
      | none =>
        exact (he_none.mp hd) op hop (sp.2) (by simp [hsp]) hc
      | some i => simp [hd] at hnone
    · intro hall
      cases hd : dictGet (projMapping (fun op => op.ref_span.map (fun sp => sp.2)) al) c with
      | none => simp [hd]
      | some i =>
        obtain ⟨-, hmem, hproj⟩ := he_some i hd
        obtain ⟨sp, hsp, hx⟩ := Option.map_eq_some'.mp hproj
        exact absurd hx (hall _ hmem sp hsp)
  · intro op hop
    rw [end_index_to_op, endIndexMapping_eq] at hop
    cases hd : dictGet (projMapping (fun op => op.ref_span.map (fun sp => sp.2)) al) c with
    | none => simp [hd] at hop
    | some i =>
      obtain ⟨-, hmem, hproj⟩ := he_some i hd
      simp only [hd] at hop
      obtain ⟨sp, hsp, hx⟩ := Option.map_eq_some'.mp hproj
      cases hop
      exact ⟨hmem, sp, hsp, hx⟩

/-- C4: on a sealed Alignment (reference-bearing Ops in increasing
`ref_token_idx` order), `ops_from_ref_index` raises `ValueError` exactly when
`start` (or a supplied `stop`) is not the ref index of any reference-bearing
Op or when `stop < start`; otherwise it returns the contiguous slice of Ops
from the Op bearing `start` through the Op bearing `stop` inclusive
(interleaved Inserts included, being part of the contiguous slice); with
`stop` omitted, and for `stop = start`, it returns the single Op bearing
`start`. -/
theorem ops_from_ref_index_characterize (al : List AOp) (start : Int) (stop : Option Int)
    (hmono : RefMonotone al) :
    ((∃ e, ops_from_ref_index al start stop = Except.error e ∧ e.etype = "ValueError") ↔
      (start ∉ refIdxs al ∨ ∃ st, stop = some st ∧ (st ∉ refIdxs al ∨ st < start)))
    ∧ (∀ st, stop = some st → start ∈ refIdxs al → st ∈ refIdxs al → start ≤ st →
        ∃ a b, a ≤ b ∧ b < al.length
          ∧ ops_from_ref_index al start stop = Except.ok ((al.drop a).take (b + 1 - a))
          ∧ (al.getD a default).ref_token_idx = some start
          ∧ (al.getD b default).ref_token_idx = some st)
    ∧ (stop = none → start ∈ refIdxs al →
        ∃ a, a < al.length
          ∧ ops_from_ref_index al start none = Except.ok [al.getD a default]
          ∧ (al.getD a default).ref_token_idx = some start)
    ∧ (start ∈ refIdxs al →
        ∃ a, a < al.length
          ∧ ops_from_ref_index al start (some start) = Except.ok [al.getD a default]
          ∧ (al.getD a default).ref_token_idx = some start) := by
  have single : ∀ a, dictGet (refIndexMapping al) start = some a →
      ∃ a2, a2 < al.length
        ∧ ops_from_ref_index al start (some start) = Except.ok [al.getD a2 default]
        ∧ (al.getD a2 default).ref_token_idx = some start := by
    intro a ha
    obtain ⟨hal, hra⟩ := refLookup_some ha
    refine ⟨a, hal, ?_, hra⟩
    simp only [ops_from_ref_index, ha]
    rw [if_neg (lt_irrefl start)]
    have htake : a + 1 - a = 1 := by omega
    rw [htake, List.drop_eq_getElem_cons hal, List.getD_eq_getElem _ _ hal]
    rfl
  refine ⟨?_, ?_, ?_, ?_⟩
  · cases hd1 : dictGet (refIndexMapping al) start with
    | none =>
      have hmemonot := refLookup_none_iff.mp hd1
      constructor
      · intro _; exact Or.inl hmemonot
      · intro _
        refine ⟨⟨"ValueError",
          "Start index " ++ toString start ++ " not found in reference index mapping."⟩, ?_, rfl⟩
        simp only [ops_from_ref_index, hd1]
    | some a =>
      have hmem := refLookup_mem_of_some hd1
      cases stop with
      | none =>
        constructor
        · rintro ⟨e, he, -⟩
          simp only [ops_from_ref_index, hd1] at he
          exact Except.noConfusion he
        · rintro (h | ⟨st, hst, -⟩)
          · exact absurd hmem h
          · exact Option.noConfusion hst
      | some st =>
        cases hd2 : dictGet (refIndexMapping al) st with
        | none =>
          have hstnot := refLookup_none_iff.mp hd2
          constructor
          · intro _; exact Or.inr ⟨st, rfl, Or.inl hstnot⟩
          · intro _
            refine ⟨⟨"ValueError",
              "Stop index " ++ toString st ++ " not found in reference index mapping."⟩, ?_, rfl⟩
            simp only [ops_from_ref_index, hd1, hd2]
        | some b =>
          have hstmem := refLookup_mem_of_some hd2
          by_cases hlt : st < start
          · constructor
            · intro _; exact Or.inr ⟨st, rfl, Or.inr hlt⟩
            · intro _
              refine ⟨⟨"ValueError",
                "Stop index must be greater than or equal to start index."⟩, ?_, rfl⟩
              simp only [ops_from_ref_index, hd1, hd2]
              rw [if_pos hlt]
          · constructor
            · rintro ⟨e, he, -⟩
              simp only [ops_from_ref_index, hd1, hd2] at he
              rw [if_neg hlt] at he
              exact Except.noConfusion he
            · rintro (h | ⟨st2, hst2, h | h⟩)
              · exact absurd hmem h
              · cases hst2; exact absurd hstmem h
              · cases hst2; exact absurd h hlt
  · rintro st rfl hstart hstop hle
    obtain ⟨a, ha⟩ := refLookup_mem hstart
    obtain ⟨b, hb⟩ := refLookup_mem hstop
    obtain ⟨hal, hra⟩ := refLookup_some ha
    obtain ⟨hbl, hrb⟩ := refLookup_some hb
    refine ⟨a, b, refMonotone_le hmono ha hb hle, hbl, ?_, hra, hrb⟩
    simp only [ops_from_ref_index, ha, hb]
    rw [if_neg (by omega : ¬st < start)]
  · rintro rfl hstart
    obtain ⟨a, ha⟩ := refLookup_mem hstart
    obtain ⟨hal, hra⟩ := refLookup_some ha
    refine ⟨a, hal, ?_, hra⟩
    simp only [ops_from_ref_index, ha]
    rw [List.drop_eq_getElem_cons hal, List.getD_eq_getElem _ _ hal]
    rfl
  · intro hstart
    obtain ⟨a, ha⟩ := refLookup_mem hstart
    exact single a ha

/-- C1 (code bug, evaluated at the failing input): take a 33-token
reference whose tokens at indices 1 and 32 survive into the 2-token
hypothesis `[101, 132]`, with the minimal all-delete edit script
`bugScript` (valid: the sparse projection of the complete walk `bugWalk`,
whose consumed lengths are 33 and 2).  The untouched index sets are
`{1, 32}` and `{0, 1}` (third and fourth conjuncts give their ascending
enumerations); CPython realizes the iteration of the fresh set `{1, 32}`
as `[32, 1]` (32 hashes to slot 0 of the 8-slot table) and of `{0, 1}` as
`[0, 1]`, and with these orders the built Alignment reads the hypothesis
tokens of its non-Delete Ops as `[132, 101]` — NOT the original
`[101, 132]`: reconstruction of the hypothesis side fails, although the
cardinality assert passes. -/
theorem builder_fails_reconstruction_on_cpython_order :
    refLenW bugWalk = 33 ∧ hypLenW bugWalk = 2
    ∧ ((List.range 33).filter (fun r => decide (r ∉ refEditIdxs bugScript)) = [1, 32])
    ∧ ((List.range 2).filter (fun h => decide (h ∉ hypEditIdxs bugScript)) = [0, 1])
    ∧ (rapidfuzzToBewerOp bugScript [32, 1] [0, 1] (List.range 33) [101, 132]).map
        (fun ops => (ops.filter (fun op => decide (op.type ≠ OpType.DELETE))).filterMap
          (fun op => op.hyp_token))
      = Except.ok [132, 101]
    ∧ ([132, 101] : List Nat) ≠ [101, 132] := by
  refine ⟨by decide, by decide, by decide, by decide, ?_, by decide⟩
  have hms : ((bugScript ++ (([32, 1] : List Nat).zip [0, 1]).map
      (fun p : Nat × Nat => ("match", p.1, p.2))).mergeSort opKeyLe) = bugSorted :=
    mergeSort_eq_of_sorted_perm _ _ (by decide) (by decide)
  simp only [rapidfuzzToBewerOp]
  rw [if_neg (by decide), hms]
  rfl

/-- C5 (code bug, evaluated at the failing input): for the same edit script
`bugScript`, the untouched index sets are `{1, 32}` (ascending enumeration
`[1, 32]`, first conjunct) and `{0, 1}`; CPython realizes the iteration of
the fresh set `{1, 32}` as `[32, 1]` — a permutation of the set, but not
ascending — so the source's `zip` synthesizes `("match", 32, 0)` as the 0-th
triple, pairing the LARGEST untouched reference index with the smallest
untouched hypothesis index; the synthesized triples differ from the
sorted-positional pairing `("match", 1, 0), ("match", 32, 1)` the claim
describes. -/
theorem synth_mispairs_on_cpython_order :
    ((List.range 33).filter (fun r => decide (r ∉ refEditIdxs bugScript)) = [1, 32])
    ∧ ((List.range 2).filter (fun h => decide (h ∉ hypEditIdxs bugScript)) = [0, 1])
    ∧ ([32, 1] : List Nat).Perm [1, 32]
    ∧ ((([32, 1] : List Nat).zip [0, 1]).map (fun p => ("match", p.1, p.2))
        = [("match", 32, 0), ("match", 1, 1)])
    ∧ ((([32, 1] : List Nat).zip [0, 1]).map (fun p => ("match", p.1, p.2))
        ≠ (([1, 32] : List Nat).zip [0, 1]).map (fun p => ("match", p.1, p.2))) := by
  refine ⟨by decide, by decide, ?_, by decide, by decide⟩
  have h1 : ([32, 1] : List Nat).Perm [1, 32] := List.Perm.swap 1 32 []
  exact h1

/-- C2: `Keyword.find_in_tokens` returns exactly the start positions at
which the keyword tokens occur contiguously under the requested comparison
mode, in ascending order, each materialized as the token slice
`[p, p + K)`; the empty keyword returns `[]` (not an error) and a keyword
with no contiguous occurrence returns `[]` (an empty filter). -/
theorem keyword_find_in_tokens_correct (kw : List String) (tl : List KTok) (nm : Bool) :
    find_in_tokens kw tl nm =
      if kw = [] then []
      else (keywordOccurrences kw tl nm).map (fun p => (tl.drop p).take kw.length) := by
  cases kw with
  | nil => rfl
  | cons k0 krest =>
    rw [if_neg (by simp)]
    simp only [find_in_tokens]
    rw [kwIntersect_eq_filter]
    have hfilter : (indices tl k0 nm).filter (restAll tl nm krest 1)
        = keywordOccurrences (k0 :: krest) tl nm := by
      rw [indices, keywordOccurrences, List.filter_filter]
      apply List.filter_congr
      intro i hi
      rw [List.mem_range] at hi
      exact occurs_pointwise tl nm k0 krest i hi
    rw [hfilter]
    have hsorted : List.Pairwise (fun a b : Nat => decide (a ≤ b) = true)
        (keywordOccurrences (k0 :: krest) tl nm) := by
      have h1 : List.Pairwise (· < ·) (List.range tl.length) :=
        List.sorted_lt_range tl.length
      have h2 := h1.filter (occursAtB (k0 :: krest) tl nm)
      exact h2.imp (fun h => by simp [Nat.le_of_lt h])
    rw [List.mergeSort_of_sorted hsorted]

/-- C3: a stage-`k` derived-value accessor keys its cache by the ambient
names of all stages `1..k`: under a consistent cache it returns the value of
the current prefix configuration (never one computed under a different
configuration); two reads under an unchanged ambient configuration return
the identical cached result with no further `_compute` invocation (at most
one invocation per distinct prefix, none on a cache hit); and configurations
differing at any stage `j < k` produce distinct cache keys. -/
theorem pipeline_cache_correct {F V : Type} (reg : List (String × F))
    (stageAttr : String) (computeFn : List String → F → V)
    (cfg : List String) (k : Nat) (st : PipeState V) (f : F)
    (hinv : CacheConsistent reg computeFn st.cache)
    (hres : reg.lookup ((cfg.take k).getLastD "") = some f) :
    ∃ st1 : PipeState V,
      pcpGet (some reg) stageAttr computeFn cfg k st
        = Except.ok (computeFn (cfg.take k) f, st1)
      ∧ pcpGet (some reg) stageAttr computeFn cfg k st1
        = Except.ok (computeFn (cfg.take k) f, st1)
      ∧ st1.calls ≤ st.calls + 1
      ∧ (st.cache.lookup (cfg.take k) ≠ none → st1 = st ∧ st1.calls = st.calls)
      ∧ CacheConsistent reg computeFn st1.cache
      ∧ (∀ cfg2 : List String, (∃ j, j < k ∧ cfg.getD j "" ≠ cfg2.getD j "") →
          cfg.take k ≠ cfg2.take k) := by
  have keyNe : ∀ cfg2 : List String, (∃ j, j < k ∧ cfg.getD j "" ≠ cfg2.getD j "") →
      cfg.take k ≠ cfg2.take k := by
    rintro cfg2 ⟨j, hj, hne⟩ heq
    apply hne
    have h1 : (cfg.take k).getD j "" = cfg.getD j "" := by
      rw [List.getD_eq_getElem?_getD, List.getD_eq_getElem?_getD,
        List.getElem?_take_of_lt hj]
    have h2 : (cfg2.take k).getD j "" = cfg2.getD j "" := by
      rw [List.getD_eq_getElem?_getD, List.getD_eq_getElem?_getD,
        List.getElem?_take_of_lt hj]
    rw [← h1, ← h2, heq]
  cases hc : st.cache.lookup (cfg.take k) with
  | some v =>
    obtain ⟨f0, hf0, hv⟩ := hinv (cfg.take k) v hc
    have hff : f0 = f := by
      rw [hres] at hf0
      exact (Option.some.injEq .. ▸ hf0).symm
    refine ⟨st, ?_, ?_, by omega, fun _ => ⟨rfl, rfl⟩, hinv, keyNe⟩
    · simp only [pcpGet, hc, hv, hff]
    · simp only [pcpGet, hc, hv, hff]
  | none =>
    refine ⟨⟨(cfg.take k, computeFn (cfg.take k) f) :: st.cache, st.calls + 1⟩,
      ?_, ?_, le_rfl, fun hne => absurd rfl hne, ?_, keyNe⟩
    · simp only [pcpGet, hc, hres]
    · simp only [pcpGet, List.lookup_cons_self]
    · intro key2 v2 h2
      rw [List.lookup_cons] at h2
      by_cases hk2 : (key2 == cfg.take k) = true
      · have hkey : key2 = cfg.take k := by
          exact eq_of_beq hk2
        rw [hk2] at h2
        simp only [cond_true, Option.some.injEq] at h2
        exact ⟨f, by rw [hkey]; exact hres, by rw [hkey, ← h2]⟩
      · rw [Bool.eq_false_iff.mpr hk2] at h2
        simp only [cond_false] at h2
        exact hinv key2 v2 h2

/-- C3 witness: the memoization theorem instantiated at the normalizer stage
(`k = 3`) with the default configuration, an empty cache and the concrete
registry. -/
theorem pipeline_cache_correct_witness :
    CacheConsistent pcpRegEx pcpComputeEx (PipeState.mk [] 0).cache
    ∧ pcpRegEx.lookup ((["default", "default", "default"].take 3).getLastD "") = some "normfn"
    ∧ ∃ st1 : PipeState String,
      pcpGet (some pcpRegEx) "normalizers" pcpComputeEx ["default", "default", "default"] 3
          (PipeState.mk [] 0)
        = Except.ok (pcpComputeEx (["default", "default", "default"].take 3) "normfn", st1)
      ∧ pcpGet (some pcpRegEx) "normalizers" pcpComputeEx ["default", "default", "default"] 3 st1
        = Except.ok (pcpComputeEx (["default", "default", "default"].take 3) "normfn", st1)
      ∧ st1.calls ≤ (PipeState.mk ([] : List (List String × String)) 0).calls + 1
      ∧ ((PipeState.mk ([] : List (List String × String)) 0).cache.lookup
            (["default", "default", "default"].take 3) ≠ none →
          st1 = PipeState.mk [] 0 ∧ st1.calls = 0)
      ∧ CacheConsistent pcpRegEx pcpComputeEx st1.cache
      ∧ (∀ cfg2 : List String,
          (∃ j, j < 3 ∧ ["default", "default", "default"].getD j "" ≠ cfg2.getD j "") →
          ["default", "default", "default"].take 3 ≠ cfg2.take 3) := by
  refine ⟨?_, by decide, ?_⟩
  · intro key v h
    simp at h
  · exact pipeline_cache_correct pcpRegEx "normalizers" pcpComputeEx
      ["default", "default", "default"] 3 (PipeState.mk [] 0) "normfn"
      (by intro key v h; simp at h) (by decide)

/-- C7 counterexample: the two pipeline-resolution failures — no registry
reachable versus name absent from the registry — are raised with the SAME
exception type, `ValueError`, contradicting the claim that they do not share
one error type (the source distinguishes them by message only, as do its
tests). -/
theorem pipeline_errors_share_valueerror :
    ∃ e1 e2 : PyError,
      pcpGet none "normalizers" pcpComputeEx ["default", "default", "default"] 3
          (PipeState.mk ([] : List (List String × String)) 0)
        = Except.error e1
      ∧ pcpGet (some ([] : List (String × String))) "normalizers" pcpComputeEx
          ["default", "default", "default"] 3 (PipeState.mk [] 0)
        = Except.error e2
      ∧ e1.etype = e2.etype := by
  refine ⟨⟨"ValueError", "No normalizers found in pipelines."⟩,
    ⟨"ValueError", "\x27default\x27 not found in normalizers."⟩, ?_, ?_, rfl⟩
  · rfl
  · rfl

/-- C7 (amended): both pipeline-resolution failures raise the same exception
type `ValueError`; they are nonetheless distinguishable by their messages —
no-registry produces `No &lt;attr&gt; found in pipelines.`, a missing name
produces a quoted-name message, and the two message shapes never coincide. -/
theorem pipeline_errors_distinguishable {F V : Type} (stageAttr : String)
    (computeFn : List String → F → V) (cfg : List String) (k : Nat) (st : PipeState V)
    (hmiss : st.cache.lookup (cfg.take k) = none) :
    pcpGet none stageAttr computeFn cfg k st
      = Except.error ⟨"ValueError", "No " ++ stageAttr ++ " found in pipelines."⟩
    ∧ (∀ reg : List (String × F), reg.lookup ((cfg.take k).getLastD "") = none →
        pcpGet (some reg) stageAttr computeFn cfg k st
          = Except.error ⟨"ValueError",
              "\x27" ++ (cfg.take k).getLastD "" ++ "\x27 not found in " ++ stageAttr ++ "."⟩)
    ∧ (∀ s1 s2 : String,
        "No " ++ s1 ++ " found in pipelines." ≠ "\x27" ++ s2 ++ "\x27 not found in " ++ s1 ++ ".") := by
  refine ⟨?_, ?_, ?_⟩
  · simp only [pcpGet, hmiss]
  · intro reg hreg
    simp only [pcpGet, hmiss, hreg]
  · intro s1 s2 h
    have hd := congrArg String.data h
    simp only [String.data_append, List.cons_append, List.nil_append,
      List.append_assoc] at hd
    injection hd with hc _
    exact absurd hc (by decide)

/-- C7 (amended) witness: the distinguishability theorem instantiated on the
empty cache at the normalizer stage. -/
theorem pipeline_errors_distinguishable_witness :
    (PipeState.mk ([] : List (List String × String)) 0).cache.lookup
        (["default", "default", "default"].take 3) = none
    ∧ (pcpGet none "normalizers" pcpComputeEx ["default", "default", "default"] 3
          (PipeState.mk [] 0)
        = Except.error ⟨"ValueError", "No normalizers found in pipelines."⟩
      ∧ (∀ reg : List (String × String),
          reg.lookup ((["default", "default", "default"].take 3).getLastD "") = none →
          pcpGet (some reg) "normalizers" pcpComputeEx ["default", "default", "default"] 3
              (PipeState.mk [] 0)
            = Except.error ⟨"ValueError",
                "\x27" ++ (["default", "default", "default"].take 3).getLastD ""
                  ++ "\x27 not found in normalizers."⟩)
      ∧ (∀ s1 s2 : String,
          "No " ++ s1 ++ " found in pipelines."
            ≠ "\x27" ++ s2 ++ "\x27 not found in " ++ s1 ++ ".")) :=
  ⟨rfl, pipeline_errors_distinguishable "normalizers" pcpComputeEx
    ["default", "default", "default"] 3 (PipeState.mk [] 0) rfl⟩

/-- C4 witness: the range-query characterization instantiated on a concrete
monotone alignment with `start = 0`, `stop = 1`. -/
theorem ops_from_ref_index_characterize_witness :
    RefMonotone alignEx ∧
    (((∃ e, ops_from_ref_index alignEx 0 (some 1) = Except.error e ∧ e.etype = "ValueError") ↔
      ((0 : Int) ∉ refIdxs alignEx ∨
        ∃ st, (some 1 : Option Int) = some st ∧ (st ∉ refIdxs alignEx ∨ st < 0)))
    ∧ (∀ st, (some 1 : Option Int) = some st → (0 : Int) ∈ refIdxs alignEx →
        st ∈ refIdxs alignEx → 0 ≤ st →
        ∃ a b, a ≤ b ∧ b < alignEx.length
          ∧ ops_from_ref_index alignEx 0 (some 1) = Except.ok ((alignEx.drop a).take (b + 1 - a))
          ∧ (alignEx.getD a default).ref_token_idx = some 0
          ∧ (alignEx.getD b default).ref_token_idx = some st)
    ∧ ((some 1 : Option Int) = none → (0 : Int) ∈ refIdxs alignEx →
        ∃ a, a < alignEx.length
          ∧ ops_from_ref_index alignEx 0 none = Except.ok [alignEx.getD a default]
          ∧ (alignEx.getD a default).ref_token_idx = some 0)
    ∧ ((0 : Int) ∈ refIdxs alignEx →
        ∃ a, a < alignEx.length
          ∧ ops_from_ref_index alignEx 0 (some 0) = Except.ok [alignEx.getD a default]
          ∧ (alignEx.getD a default).ref_token_idx = some 0)) :=
  ⟨by decide, ops_from_ref_index_characterize alignEx 0 (some 1) (by decide)⟩

end Bewer
